import Mathlib

/-!
Shallow embedding of the Upbit dual-momentum trading bot
(`main.py`, class `UpbitMomentumStrategy`) and proofs about it.

Modelling conventions:
* Python floats (prices, balances, cash) are modelled as `ℚ`.
* Timestamps are seconds since an arbitrary epoch, modelled as `ℕ`;
  Python's `timedelta.days` becomes division by 86400, and the
  minute count used by the rebalancing interval becomes division by 60.
* Python dicts keyed by strings (`holding_periods`, `consecutive_holds`)
  are modelled as functions `String → Option ℕ`; every dict mutation in
  the source touches a single key, so the pointwise translation is exact.
* External collaborators (exchange, CoinGecko, price feed) are passed in
  as explicit data: an account snapshot, an optional provider response
  (`none` models a failed HTTP call), and price/history accessors.
* Order placement always succeeds in the model; the `try/except` blocks
  around individual orders only matter for external failures, which are
  outside the pure decision logic being verified.
-/

/-- One entry of `upbit.get_balances()`: a held currency with its amount
and average buy price. -/
structure Balance where
  currency : String
  balance : ℚ
  avg_buy_price : ℚ

/-- Builds the ticker string the source builds with an f-string
(`f"KRW-{symbol}"`). -/
def mkTicker (c : String) : String := "KRW-" ++ c

/-- Recovers the currency from a `KRW-` ticker, as `ticker.split('-')[1]`
does in the source for tickers of the form `KRW-<symbol>`. -/
def stripTicker (t : String) : String := ⟨t.data.drop 4⟩

theorem stripTicker_mkTicker (c : String) : stripTicker (mkTicker c) = c := by
  have hdata : (mkTicker c).data = "KRW-".data ++ c.data := rfl
  have hlen : "KRW-".data.length = 4 := rfl
  simp only [stripTicker, hdata]
  rw [show (4 : ℕ) = "KRW-".data.length from hlen.symm, List.drop_left]

theorem mkTicker_injective : Function.Injective mkTicker := by
  intro a b h
  have := congrArg stripTicker h
  simpa [stripTicker_mkTicker] using this

/-- The recurring qualifying filter of the source (lines 326-332, 401-404,
439-445): positive balance, not a manual holding, and notional value
(balance × average buy price) at least 10,000 KRW.  Returns the list of
currency symbols in account order. -/
def qualifying (balances : List Balance) (manual : List String) : List String :=
  (balances.filter (fun b =>
    decide (0 < b.balance) && decide (b.currency ∉ manual) &&
    decide ((10000 : ℚ) ≤ b.balance * b.avg_buy_price))).map (fun b => b.currency)

theorem mem_qualifying {balances : List Balance} {manual : List String} {c : String} :
    c ∈ qualifying balances manual ↔
      ∃ b ∈ balances, b.currency = c ∧ 0 < b.balance ∧ b.currency ∉ manual ∧
        (10000 : ℚ) ≤ b.balance * b.avg_buy_price := by
  simp only [qualifying, List.mem_map, List.mem_filter, Bool.and_eq_true, decide_eq_true_eq]
  constructor
  · rintro ⟨b, ⟨hb, ⟨h1, h2⟩, h3⟩, rfl⟩
    exact ⟨b, hb, rfl, h1, h2, h3⟩
  · rintro ⟨b, hb, rfl, h1, h2, h3⟩
    exact ⟨b, ⟨hb, ⟨h1, h2⟩, h3⟩, rfl⟩

/-!
Stable descending sort.  Python's `sorted(xs, key=..., reverse=True)` is a
stable sort: elements with equal keys keep their input order.  The
insertion sort below places a new element in front of the first element
whose key is not strictly larger, which yields exactly that order when
elements are inserted right-to-left.
-/

/-- Inserts `x` into a descending-sorted list, after every element with a
strictly larger key and before every element with a smaller-or-equal key. -/
def insortDescBy {α : Type} (key : α → ℚ) (x : α) : List α → List α
  | [] => [x]
  | y :: ys => if key x < key y then y :: insortDescBy key x ys else x :: y :: ys

/-- Stable descending sort by `key`; models `sorted(xs, key=key, reverse=True)`. -/
def sortDescBy {α : Type} (key : α → ℚ) : List α → List α
  | [] => []
  | x :: xs => insortDescBy key x (sortDescBy key xs)

theorem mem_insortDescBy {α : Type} (key : α → ℚ) (x a : α) (l : List α) :
    a ∈ insortDescBy key x l ↔ a = x ∨ a ∈ l := by
  induction l with
  | nil => simp [insortDescBy]
  | cons y ys ih =>
      by_cases h : key x < key y
      · simp only [insortDescBy, if_pos h, List.mem_cons, ih]
        tauto
      · simp only [insortDescBy, if_neg h, List.mem_cons]

theorem pairwise_insortDescBy {α : Type} (key : α → ℚ) (x : α) {l : List α}
    (hl : l.Pairwise (fun a b => key b ≤ key a)) :
    (insortDescBy key x l).Pairwise (fun a b => key b ≤ key a) := by
  induction l with
  | nil => simp [insortDescBy]
  | cons y ys ih =>
      rcases List.pairwise_cons.mp hl with ⟨hy, hys⟩
      by_cases h : key x < key y
      · rw [insortDescBy, if_pos h]
        refine List.pairwise_cons.mpr ⟨?_, ih hys⟩
        intro z hz
        rcases (mem_insortDescBy key x z ys).mp hz with rfl | hz
        · exact le_of_lt h
        · exact hy z hz
      · rw [insortDescBy, if_neg h]
        refine List.pairwise_cons.mpr ⟨?_, hl⟩
        intro z hz
        rcases List.mem_cons.mp hz with rfl | hz
        · exact le_of_not_lt h
        · exact le_trans (hy z hz) (le_of_not_lt h)

theorem pairwise_sortDescBy {α : Type} (key : α → ℚ) (l : List α) :
    (sortDescBy key l).Pairwise (fun a b => key b ≤ key a) := by
  induction l with
  | nil => simp [sortDescBy]
  | cons x xs ih => exact pairwise_insortDescBy key x ih

/-- Stability of the insertion step, phrased through `filter`: the
elements whose key equals a fixed value `s` appear in the same order
before and after inserting, with an inserted element of key `s` put first. -/
theorem filter_insortDescBy {α : Type} (key : α → ℚ) (x : α) (l : List α) (s : ℚ) :
    (insortDescBy key x l).filter (fun a => decide (key a = s)) =
      if key x = s then x :: l.filter (fun a => decide (key a = s))
      else l.filter (fun a => decide (key a = s)) := by
  induction l with
  | nil =>
      by_cases hx : key x = s <;> simp [insortDescBy, hx]
  | cons y ys ih =>
      by_cases h : key x < key y
      · rw [insortDescBy, if_pos h]
        by_cases hx : key x = s
        · have hy : ¬ (key y = s) := fun hys =>
            absurd h (by rw [hx, hys]; exact lt_irrefl s)
          simp [List.filter_cons, hy, ih, hx]
        · simp [List.filter_cons, ih, hx]
      · rw [insortDescBy, if_neg h]
        by_cases hx : key x = s <;>
          simp [List.filter_cons, hx]

/-- Stability of the full sort: elements with a given key keep their
relative input order. -/
theorem filter_sortDescBy {α : Type} (key : α → ℚ) (l : List α) (s : ℚ) :
    (sortDescBy key l).filter (fun a => decide (key a = s)) =
      l.filter (fun a => decide (key a = s)) := by
  induction l with
  | nil => rfl
  | cons x xs ih =>
      rw [sortDescBy, filter_insortDescBy]
      by_cases hx : key x = s <;> simp [List.filter_cons, hx, ih]

theorem mem_sortDescBy {α : Type} (key : α → ℚ) (a : α) (l : List α) :
    a ∈ sortDescBy key l ↔ a ∈ l := by
  induction l with
  | nil => simp [sortDescBy]
  | cons x xs ih => simp [sortDescBy, mem_insortDescBy, ih]

/-!
MomentumSelector: `calculate_7day_returns` (main.py lines 217-229) and
`get_top3_momentum` (lines 231-242).
-/

/-- The return computed at main.py line 226 from a daily-close series
`df['close']`:  `(df['close'].iloc[-1] - df['close'].iloc[-7]) / df['close'].iloc[-7] * 100`.
`iloc[-1]` is index `length - 1` and `iloc[-7]` is index `length - 7`. -/
def seven_day_return (closes : List ℚ) : ℚ :=
  (closes.getD (closes.length - 1) 0 - closes.getD (closes.length - 7) 0) /
    closes.getD (closes.length - 7) 0 * 100

/-- Python dict assignment `m[k] = v`: overwrite if the key is present,
otherwise append at the end (dicts preserve insertion order). -/
def dictInsert (m : List (String × ℚ)) (k : String) (v : ℚ) : List (String × ℚ) :=
  if m.any (fun p => decide (p.1 = k)) then
    m.map (fun p => if p.1 = k then (k, v) else p)
  else m ++ [(k, v)]

/-- Embeds `calculate_7day_returns` (main.py lines 217-229).  The price
history accessor `hist` models `pyupbit.get_ohlcv(ticker, "day", count=8)`:
`none` is a failed fetch (`df is None`), `some closes` the close column.
A ticker contributes iff its history exists and has at least 7 samples. -/
def calculate_7day_returns (tickers : List String) (hist : String → Option (List ℚ)) :
    List (String × ℚ) :=
  tickers.foldl (fun m ticker =>
    match hist ticker with
    | some df => if 7 ≤ df.length then dictInsert m ticker (seven_day_return df) else m
    | none => m) []

/-- Embeds the ranking-and-truncation part of `get_top3_momentum`
(main.py lines 231-242): sort the returns dict descending by value
(Python's stable `sorted(..., key=lambda x: x[1], reverse=True)`), take
the first three, and keep the tickers.  The candidate list is the result
of `get_top20_market_cap`, passed here as a parameter (line 235-236). -/
def get_top3_momentum (top20 : List String) (hist : String → Option (List ℚ)) :
    List String :=
  ((sortDescBy Prod.snd (calculate_7day_returns top20 hist)).take 3).map Prod.fst

/-- Embeds `get_top20_market_cap` (main.py lines 94-154).  `provider` is
the CoinGecko response: `none` models a request error (the `except`
branch returns `[]` after notifying), `some coins` a list of
`(symbol, market_cap, market_cap_rank)` entries where the cap is `none`
for a JSON null.  An entry is usable iff its symbol is listed, not
excluded, present in the provider map, and has a non-null, non-zero cap.
An empty usable set raises, which the same `except` turns into `[]`. -/
def get_top20_market_cap (provider : Option (List (String × Option ℕ × ℕ)))
    (symbols : List String) (exclude : List String) : List String :=
  match provider with
  | none => []
  | some coins =>
    let market_caps := symbols.filterMap (fun s =>
      if s ∈ exclude then none
      else
        match coins.reverse.find? (fun c => decide (c.1 = s)) with
        | some (_, some cap, rank) => if cap ≠ 0 then some (mkTicker s, cap, rank) else none
        | _ => none)
    if market_caps = [] then []
    else ((sortDescBy (fun x => ((x.2.1 : ℕ) : ℚ)) market_caps).take 20).map (fun x => x.1)

/-!
HoldingLedger: the persisted maps `holding_periods` (ticker → acquisition
timestamp) and `consecutive_holds` (ticker → hold count), and the
operations mutating them.
-/

/-- The two persisted dicts of the strategy, keyed by `KRW-` tickers. -/
@[ext]
structure LedgerState where
  holding_periods : String → Option ℕ
  consecutive_holds : String → Option ℕ

/-- The ledger mutation performed on every successful sell
(main.py lines 351-353, 415-417): `del holding_periods[ticker]` (guarded
by a membership test, so simply mapping the key to `none`) and
`consecutive_holds[ticker] = 0`. -/
def recordSell (L : LedgerState) (t : String) : LedgerState where
  holding_periods := fun s => if s = t then none else L.holding_periods s
  consecutive_holds := fun s => if s = t then some 0 else L.consecutive_holds s

/-- The ledger mutation performed on every successful buy
(main.py lines 379-380): `holding_periods[ticker] = now` and
`consecutive_holds[ticker] = consecutive_holds.get(ticker, 0) + 1`. -/
def recordBuy (L : LedgerState) (t : String) (now : ℕ) : LedgerState where
  holding_periods := fun s => if s = t then some now else L.holding_periods s
  consecutive_holds := fun s =>
    if s = t then some ((L.consecutive_holds t).getD 0 + 1) else L.consecutive_holds s

/-- Embeds `should_keep_coin` (main.py lines 244-262).  `now` and the
recorded acquisition time are in seconds; `(current_time - acquired).days`
is `(now - acquired) / 86400`.  A ticker is sold when held at least 14
whole days or when its consecutive-hold count is at least 3. -/
def should_keep_coin (L : LedgerState) (now : ℕ) (ticker : String) : Bool :=
  let consecutive_check : Bool :=
    match L.consecutive_holds ticker with
    | some c => if 3 ≤ c then false else true
    | none => true
  match L.holding_periods ticker with
  | some acquired =>
      if 14 ≤ (now - acquired) / 86400 then false else consecutive_check
  | none => consecutive_check

/-- Embeds `sync_holdings_with_current_state` (main.py lines 292-320).
The live qualifying tickers are `current_holdings`; the first loop
removes every recorded ticker that is no longer held (delete the period,
zero the count), the second inserts every held ticker that is not
recorded (`acquired = now`, count incremented from its stale value).
A ticker is recorded iff `holding_periods` maps it to `some`, so the two
disjoint per-key loops translate to the pointwise definition below. -/
def sync_holdings_with_current_state (balances : List Balance) (manual : List String)
    (now : ℕ) (L : LedgerState) : LedgerState where
  holding_periods := fun t =>
    if t ∈ (qualifying balances manual).map mkTicker then
      match L.holding_periods t with
      | some p => some p
      | none => some now
    else none
  consecutive_holds := fun t =>
    if t ∈ (qualifying balances manual).map mkTicker then
      match L.holding_periods t with
      | some _ => L.consecutive_holds t
      | none => some ((L.consecutive_holds t).getD 0 + 1)
    else
      match L.holding_periods t with
      | some _ => some 0
      | none => L.consecutive_holds t

/-!
RiskGate: the stop-loss scan `check_loss_threshold` (main.py lines 156-214).
-/

/-- The per-balance stop-loss test of main.py lines 169-191: skip manual
holdings and the KRW cash row, skip positions below the 10,000 KRW
notional floor, skip tickers whose current price cannot be fetched, and
flag the rest whose return `(price - avg) / avg * 100` is at or below the
threshold. -/
def stop_loss_hit (manual : List String) (prices : String → Option ℚ) (threshold : ℚ)
    (b : Balance) : Bool :=
  decide (b.currency ∉ manual) && decide (b.currency ≠ "KRW") &&
  decide ((10000 : ℚ) ≤ b.balance * b.avg_buy_price) &&
  match prices (mkTicker b.currency) with
  | none => false
  | some p => decide ((p - b.avg_buy_price) / b.avg_buy_price * 100 ≤ threshold)

/-- Embeds `check_loss_threshold` (main.py lines 156-214): the list of
tickers sold by the stop-loss scan, in account order.  (The sync call at
line 208 only touches the ledger and is applied by the caller's tick.) -/
def check_loss_threshold (balances : List Balance) (manual : List String)
    (prices : String → Option ℚ) (threshold : ℚ) : List String :=
  (balances.filter (stop_loss_hit manual prices threshold)).map (fun b => mkTicker b.currency)

/-!
ExecutionPlanner: `execute_trades` (main.py lines 322-393) and
`sell_all_positions` (lines 396-421).
-/

/-- Python's `int()` on a non-integral number: truncation toward zero. -/
def pyInt (q : ℚ) : ℤ :=
  if q < 0 then -((q.num.natAbs / q.den : ℕ) : ℤ) else ((q.num.natAbs / q.den : ℕ) : ℤ)

/-- The sell loop of `execute_trades` (main.py lines 338-355): walk the
current holdings in order; a coin is sold when its ticker is not in the
target set or `should_keep_coin` rejects it.  Each sell deletes the
coin's acquisition record and zeroes its consecutive-hold count before
the next coin is examined.  Returns the sold coins (in order) and the
resulting ledger. -/
def sellPhase (target : List String) (now : ℕ) :
    List String → LedgerState → List String × LedgerState
  | [], L => ([], L)
  | c :: cs, L =>
      if mkTicker c ∉ target ∨ should_keep_coin L now (mkTicker c) = false then
        let step := sellPhase target now cs (recordSell L (mkTicker c))
        (c :: step.1, step.2)
      else
        sellPhase target now cs L

/-- The buy loop of `execute_trades` (main.py lines 372-388): for each
target ticker not currently held, place a buy of `invest` KRW, record
the acquisition (`now`), bump the consecutive-hold count, remember the
purchase time, and append the bought currency to the holdings list.
Returns the buys placed, the final holdings list, the ledger, and the
last-purchase timestamp. -/
def buyPhase (invest : ℤ) (now : ℕ) :
    List String → List String → LedgerState → Option ℕ →
      List (String × ℤ) × List String × LedgerState × Option ℕ
  | [], held, L, lp => ([], held, L, lp)
  | tk :: tks, held, L, lp =>
      if tk ∉ held.map mkTicker then
        let step := buyPhase invest now tks (held ++ [stripTicker tk]) (recordBuy L tk now) (some now)
        ((tk, invest) :: step.1, step.2)
      else
        buyPhase invest now tks held L lp

/-- Everything `execute_trades` changes or emits: the sold currencies,
the buy orders `(ticker, KRW amount)`, the holdings list after both
phases, the ledger, and the last-purchase timestamp. -/
structure TradeResult where
  sells : List String
  buys : List (String × ℤ)
  held_after : List String
  ledger : LedgerState
  last_purchase : Option ℕ

/-- Embeds `execute_trades` (main.py lines 322-393).  `target_coins` is
the value of `self.get_top3_momentum()` at line 335, passed as a
parameter so the call site supplies `get_top3_momentum (get_top20_market_cap ...)`.
After the sell loop, sold coins are removed from the holdings (line 358);
buys happen only with positive cash and at least one free slot, each buy
sized to `int(krw / remaining_slots / 1000) * 1000` KRW, and the whole
buy phase is skipped (with a report) when that is below 5,000 KRW. -/
def execute_trades (balances : List Balance) (manual : List String)
    (target_coins : List String) (L : LedgerState) (now : ℕ) (krw : ℚ)
    (max_slots : ℕ) (lp : Option ℕ) : TradeResult :=
  let current_holdings := qualifying balances manual
  let sellStep := sellPhase target_coins now current_holdings L
  let held1 := current_holdings.filter (fun c => decide (c ∉ sellStep.1))
  if 0 < krw then
    let remaining_slots : ℤ := (max_slots : ℤ) - held1.length
    if 0 < remaining_slots then
      let invest_amount : ℤ := pyInt (krw / (remaining_slots : ℚ) / 1000) * 1000
      if invest_amount < 5000 then
        ⟨sellStep.1, [], held1, sellStep.2, lp⟩
      else
        let buyStep := buyPhase invest_amount now target_coins held1 sellStep.2 lp
        ⟨sellStep.1, buyStep.1, buyStep.2.1, buyStep.2.2.1, buyStep.2.2.2⟩
    else ⟨sellStep.1, [], held1, sellStep.2, lp⟩
  else ⟨sellStep.1, [], held1, sellStep.2, lp⟩

/-- The unconditional sell loop of `sell_all_positions` (main.py lines
406-419): sell every listed coin and apply the sell mutation to the
ledger for each. -/
def sellAllGo : List String → LedgerState → List String × LedgerState
  | [], L => ([], L)
  | c :: cs, L =>
      let step := sellAllGo cs (recordSell L (mkTicker c))
      (c :: step.1, step.2)

/-- Embeds `sell_all_positions` (main.py lines 396-421): liquidate every
qualifying non-manual holding. -/
def sell_all_positions (balances : List Balance) (manual : List String)
    (L : LedgerState) : List String × LedgerState :=
  sellAllGo (qualifying balances manual) L

/-!
RebalanceDecider / Controller: one iteration of the `while True` loop in
`run` (main.py lines 433-489).
-/

/-- The decision a tick can emit: liquidate everything (regime turned
off, main.py line 459) or run a full rebalance (`execute_trades`). -/
inductive Decision where
  | LiquidateAll : Decision
  | FullRebalance : Decision
deriving DecidableEq

/-- The static collaborator data one tick consumes: config sets, the
CoinGecko response, the price feed, and the daily-close histories. -/
structure Env where
  manual : List String
  exclude : List String
  symbols : List String
  provider : Option (List (String × Option ℕ × ℕ))
  prices : String → Option ℚ
  hist : String → Option (List ℚ)
  max_slots : ℕ
  rebalancing_interval : ℕ

/-- The state `run` carries across ticks: the suspension flag (local
variable `is_trading_suspended`), the persisted ledger, and
`last_purchase_time`. -/
structure SysState where
  is_trading_suspended : Bool
  ledger : LedgerState
  last_purchase_time : Option ℕ

/-- What one tick did: the next suspension flag, ledger and purchase
time, the decision emitted (if any), and every sell (currencies, stop-loss
included) and buy order placed during the tick. -/
structure TickResult where
  suspended : Bool
  ledger : LedgerState
  last_purchase : Option ℕ
  decision : Option Decision
  sells : List String
  buys : List (String × ℤ)

/-- Embeds one iteration of `run` (main.py lines 433-489).

In source order: read the balances and count the qualifying holdings
(lines 439-446, before any selling); run the stop-loss scan at threshold
−20 (line 450), which also syncs the ledger (line 208); sync again (line
453); then branch exactly as lines 455-487 do:
* regime off and not suspended → `sell_all_positions`, suspend;
* regime off and suspended → nothing;
* regime on and suspended → resume and `execute_trades`;
* regime on, active, no holdings → rebalance when `last_purchase_time`
  is unset or at least `rebalancing_interval` minutes old;
* regime on, active, holdings present → rebalance iff some coin was
  stop-loss sold or fewer than 3 coins are held (the literal `3` of
  line 481); otherwise nothing. -/
def tick (env : Env) (btc_above_ma : Bool) (balances : List Balance) (krw : ℚ)
    (now : ℕ) (st : SysState) : TickResult :=
  let current_holdings := qualifying balances env.manual
  let holding_count := current_holdings.length
  let sold_coins := check_loss_threshold balances env.manual env.prices (-20)
  let hit_currencies :=
    (balances.filter (stop_loss_hit env.manual env.prices (-20))).map (fun b => b.currency)
  let balances1 := balances.filter (fun b => !(stop_loss_hit env.manual env.prices (-20) b))
  let L1 := sync_holdings_with_current_state balances1 env.manual now st.ledger
  let L2 := sync_holdings_with_current_state balances1 env.manual now L1
  let target := get_top3_momentum (get_top20_market_cap env.provider env.symbols env.exclude) env.hist
  let rebalance : Option Decision → TickResult := fun d =>
    let r := execute_trades balances1 env.manual target L2 now krw env.max_slots
      st.last_purchase_time
    { suspended := false, ledger := r.ledger, last_purchase := r.last_purchase,
      decision := d, sells := hit_currencies ++ r.sells, buys := r.buys }
  if btc_above_ma = false then
    if st.is_trading_suspended = false then
      let liq := sell_all_positions balances1 env.manual L2
      { suspended := true, ledger := liq.2, last_purchase := st.last_purchase_time,
        decision := some Decision.LiquidateAll, sells := hit_currencies ++ liq.1, buys := [] }
    else
      { suspended := true, ledger := L2, last_purchase := st.last_purchase_time,
        decision := none, sells := hit_currencies, buys := [] }
  else if st.is_trading_suspended then
    rebalance (some Decision.FullRebalance)
  else if holding_count = 0 then
    match st.last_purchase_time with
    | some t =>
        if env.rebalancing_interval ≤ (now - t) / 60 then
          rebalance (some Decision.FullRebalance)
        else
          { suspended := false, ledger := L2, last_purchase := st.last_purchase_time,
            decision := none, sells := hit_currencies, buys := [] }
    | none => rebalance (some Decision.FullRebalance)
  else if 0 < sold_coins.length ∨ holding_count < 3 then
    rebalance (some Decision.FullRebalance)
  else
    { suspended := false, ledger := L2, last_purchase := st.last_purchase_time,
      decision := none, sells := hit_currencies, buys := [] }

/-!
Concrete data used by the witness and counterexample theorems.
-/

/-- Empty persisted state: nothing recorded in either map. -/
def emptyLedger : LedgerState where
  holding_periods := fun _ => none
  consecutive_holds := fun _ => none

/-- A price feed quoting 20,000 KRW for every ticker. -/
def flatPrices : String → Option ℚ := fun _ => some 20000

/-- Three automated holdings, each worth 20,000 KRW at its average buy
price, so none is near the stop-loss threshold under `flatPrices`. -/
def threeHoldings : List Balance :=
  [⟨"AAA", 1, 20000⟩, ⟨"BBB", 1, 20000⟩, ⟨"CCC", 1, 20000⟩]

/-- Two automated holdings for the regime-exit scenario. -/
def twoHoldings : List Balance := [⟨"AAA", 1, 20000⟩, ⟨"BBB", 1, 20000⟩]

/-- A single automated holding. -/
def oneHolding : List Balance := [⟨"AAA", 1, 20000⟩]

/-- Collaborator data for the full-slate tick: no manual holdings, three
slots, the weekly (10,080-minute) rebalancing interval, flat prices, and
no market data (the branch under test never reaches the ranking). -/
def fullSlateEnv : Env where
  manual := []
  exclude := []
  symbols := []
  provider := none
  prices := flatPrices
  hist := fun _ => none
  max_slots := 3
  rebalancing_interval := 10080

/-- A ledger holding `KRW-AAA` since the epoch with one recorded
consecutive hold. -/
def oneHoldLedger : LedgerState where
  holding_periods := fun t => if t = "KRW-AAA" then some 0 else none
  consecutive_holds := fun t => if t = "KRW-AAA" then some 1 else none

/-- A ledger recording `KRW-AAA` and `KRW-BBB` as held with counts 1 and
7; reconciling it against an account holding only `BBB` must drop
`KRW-AAA`'s timestamp while keeping its count as 0. -/
def strayLedger : LedgerState where
  holding_periods := fun t => if t = "KRW-AAA" ∨ t = "KRW-BBB" then some 0 else none
  consecutive_holds := fun t =>
    if t = "KRW-AAA" then some 1 else if t = "KRW-BBB" then some 7 else none

/-- The score as claim C5 words it: the last close against the sample
seven positions before it, the first sample of the 8-sample window. -/
def claimed_seven_day_return (closes : List ℚ) : ℚ :=
  (closes.getD (closes.length - 1) 0 - closes.getD (closes.length - 8) 0) /
    closes.getD (closes.length - 8) 0 * 100

/-!
Helper lemmas.
-/

theorem mem_map_mkTicker {s : String} {l : List String} :
    mkTicker s ∈ l.map mkTicker ↔ s ∈ l := by
  constructor
  · intro h
    rcases List.mem_map.mp h with ⟨a, ha, hEq⟩
    exact (mkTicker_injective hEq) ▸ ha
  · exact fun h => List.mem_map_of_mem mkTicker h

theorem sellAllGo_fst (l : List String) : ∀ L, (sellAllGo l L).1 = l := by
  induction l with
  | nil => intro L; rfl
  | cons c cs ih => intro L; simp [sellAllGo, ih]

/-- A coin whose ticker is outside the target set is always sold by the
sell loop, whatever the ledger says. -/
theorem sellPhase_sold_of_not_target {target : List String} {now : ℕ} {c : String}
    (hct : mkTicker c ∉ target) :
    ∀ (holdings : List String) (L : LedgerState),
      c ∈ holdings → c ∈ (sellPhase target now holdings L).1 := by
  intro holdings
  induction holdings with
  | nil => intro L h; cases h
  | cons d ds ih =>
      intro L h
      rcases List.mem_cons.mp h with rfl | h
      · rw [sellPhase, if_pos (Or.inl hct)]
        exact List.mem_cons_self _ _
      · by_cases hd : mkTicker d ∉ target ∨ should_keep_coin L now (mkTicker d) = false
        · rw [sellPhase, if_pos hd]
          exact List.mem_cons_of_mem _ (ih _ h)
        · rw [sellPhase, if_neg hd]
          exact ih _ h

/-- With an empty target the sell loop liquidates every holding, in order. -/
theorem sellPhase_nil_target (now : ℕ) :
    ∀ (holdings : List String) (L : LedgerState),
      (sellPhase [] now holdings L).1 = holdings := by
  intro holdings
  induction holdings with
  | nil => intro L; rfl
  | cons d ds ih =>
      intro L
      rw [sellPhase, if_pos (Or.inl (List.not_mem_nil _))]
      simp [ih]

/-- Every sell recorded by the sell loop leaves the sold ticker's period
deleted and its count zeroed in the final ledger. -/
theorem sellPhase_ledger_of_sold {target : List String} {now : ℕ} {c : String} :
    ∀ (holdings : List String) (L : LedgerState),
      c ∈ (sellPhase target now holdings L).1 →
      (sellPhase target now holdings L).2.holding_periods (mkTicker c) = none ∧
      (sellPhase target now holdings L).2.consecutive_holds (mkTicker c) = some 0 := by
  have final : ∀ (holdings : List String) (L : LedgerState),
      (L.holding_periods (mkTicker c) = none ∧
        L.consecutive_holds (mkTicker c) = some 0) →
      (sellPhase target now holdings L).2.holding_periods (mkTicker c) = none ∧
      (sellPhase target now holdings L).2.consecutive_holds (mkTicker c) = some 0 := by
    intro holdings
    induction holdings with
    | nil => intro L h; exact h
    | cons d ds ih =>
        intro L h
        by_cases hd : mkTicker d ∉ target ∨ should_keep_coin L now (mkTicker d) = false
        · rw [sellPhase, if_pos hd]
          refine ih _ ?_
          by_cases hdc : mkTicker c = mkTicker d
          · simp [recordSell, hdc]
          · simpa [recordSell, hdc] using h
        · rw [sellPhase, if_neg hd]
          exact ih _ h
  intro holdings
  induction holdings with
  | nil => intro L h; cases h
  | cons d ds ih =>
      intro L h
      by_cases hd : mkTicker d ∉ target ∨ should_keep_coin L now (mkTicker d) = false
      · rw [sellPhase, if_pos hd] at h ⊢
        rcases List.mem_cons.mp h with rfl | h
        · exact final _ _ (by simp [recordSell])
        · exact ih _ h
      · rw [sellPhase, if_neg hd] at h ⊢
        exact ih _ h

/-- Same preservation for the unconditional liquidation loop. -/
theorem sellAllGo_ledger_of_sold {c : String} :
    ∀ (holdings : List String) (L : LedgerState),
      c ∈ holdings →
      (sellAllGo holdings L).2.holding_periods (mkTicker c) = none ∧
      (sellAllGo holdings L).2.consecutive_holds (mkTicker c) = some 0 := by
  have final : ∀ (holdings : List String) (L : LedgerState),
      (L.holding_periods (mkTicker c) = none ∧
        L.consecutive_holds (mkTicker c) = some 0) →
      (sellAllGo holdings L).2.holding_periods (mkTicker c) = none ∧
      (sellAllGo holdings L).2.consecutive_holds (mkTicker c) = some 0 := by
    intro holdings
    induction holdings with
    | nil => intro L h; exact h
    | cons d ds ih =>
        intro L h
        rw [sellAllGo]
        refine ih _ ?_
        by_cases hdc : mkTicker c = mkTicker d
        · simp [recordSell, hdc]
        · simpa [recordSell, hdc] using h
  intro holdings
  induction holdings with
  | nil => intro L h; cases h
  | cons d ds ih =>
      intro L h
      rcases List.mem_cons.mp h with rfl | h
      · exact final ds (recordSell L (mkTicker c)) (by simp [recordSell])
      · rw [sellAllGo]
        exact ih _ h

/-- Every buy the buy loop places carries the single per-slot amount. -/
theorem buyPhase_amount {invest : ℤ} {now : ℕ} :
    ∀ (tks held : List String) (L : LedgerState) (lp : Option ℕ),
      ∀ p ∈ (buyPhase invest now tks held L lp).1, p.2 = invest := by
  intro tks
  induction tks with
  | nil => intro held L lp p hp; cases hp
  | cons tk rest ih =>
      intro held L lp p hp
      by_cases h : tk ∉ held.map mkTicker
      · rw [buyPhase, if_pos h] at hp
        rcases List.mem_cons.mp hp with rfl | hp
        · rfl
        · exact ih _ _ _ _ hp
      · rw [buyPhase, if_neg h] at hp
        exact ih _ _ _ _ hp

/-- With distinct target symbols, the buy loop places exactly one buy per
target symbol not already held when it starts. -/
theorem buyPhase_length {invest : ℤ} {now : ℕ} :
    ∀ (S held : List String) (L : LedgerState) (lp : Option ℕ), S.Nodup →
      (buyPhase invest now (S.map mkTicker) held L lp).1.length =
        (S.filter (fun s => decide (s ∉ held))).length := by
  intro S
  induction S with
  | nil => intro held L lp _; rfl
  | cons s rest ih =>
      intro held L lp hnd
      rcases List.nodup_cons.mp hnd with ⟨hs, hrest⟩
      by_cases h : s ∈ held
      · have hmem : ¬ mkTicker s ∉ held.map mkTicker := fun hn =>
          hn (mem_map_mkTicker.mpr h)
        rw [List.map_cons, buyPhase, if_neg hmem]
        rw [ih held L lp hrest]
        simp [List.filter_cons, h]
      · have hmem : mkTicker s ∉ held.map mkTicker := fun hmem =>
          h (mem_map_mkTicker.mp hmem)
        rw [List.map_cons, buyPhase, if_pos hmem]
        simp only [List.length_cons, stripTicker_mkTicker]
        rw [ih (held ++ [s]) _ _ hrest]
        have hfilters : rest.filter (fun x => decide (x ∉ held ++ [s])) =
            rest.filter (fun x => decide (x ∉ held)) := by
          refine List.filter_congr ?_
          intro x hx
          have hxs : x ≠ s := fun hEq => hs (hEq ▸ hx)
          simp [List.mem_append, hxs]
        rw [hfilters]
        simp [List.filter_cons, h]

/-- The count of list elements satisfying a predicate splits the length. -/
theorem length_filter_split {α : Type} (l : List α) (p : α → Bool) :
    (l.filter p).length + (l.filter (fun a => !(p a))).length = l.length :=
  (List.length_eq_length_filter_add p).symm

/-- A deduplicated sublist-as-set occupies at least its cardinality among
the elements of any deduplicated superset. -/
theorem length_filter_mem_ge {l sub : List String} (hsub : ∀ c ∈ sub, c ∈ l)
    (hl : l.Nodup) (hs : sub.Nodup) :
    sub.length ≤ (l.filter (fun c => decide (c ∈ sub))).length := by
  have h1 : (l.filter (fun c => decide (c ∈ sub))).Nodup := hl.filter _
  have h2 : sub.toFinset ⊆ (l.filter (fun c => decide (c ∈ sub))).toFinset := by
    intro x hx
    rw [List.mem_toFinset] at hx ⊢
    rw [List.mem_filter]
    exact ⟨hsub x hx, by simpa using hx⟩
  calc sub.length = sub.toFinset.card := (List.toFinset_card_of_nodup hs).symm
    _ ≤ (l.filter (fun c => decide (c ∈ sub))).toFinset.card := Finset.card_le_card h2
    _ = (l.filter (fun c => decide (c ∈ sub))).length := List.toFinset_card_of_nodup h1

/-- Keys of a dict after assignment: the old keys plus the assigned key. -/
theorem mem_dictInsert {m : List (String × ℚ)} {k : String} {v : ℚ} {p : String × ℚ} :
    p ∈ dictInsert m k v → p ∈ m ∨ p.1 = k := by
  intro hp
  unfold dictInsert at hp
  by_cases h : m.any (fun q => decide (q.1 = k))
  · rw [if_pos h] at hp
    rcases List.mem_map.mp hp with ⟨q, hq, hEq⟩
    by_cases hk : q.1 = k
    · right
      rw [if_pos hk] at hEq
      rw [← hEq]
    · left
      rw [if_neg hk] at hEq
      exact hEq ▸ hq
  · rw [if_neg h] at hp
    rcases List.mem_append.mp hp with hp | hp
    · exact Or.inl hp
    · right
      rcases List.mem_singleton.mp hp with rfl
      rfl

/-- Every entry of the returns dict belongs to a ticker whose fetched
history exists and has at least 7 samples. -/
theorem calculate_7day_returns_sufficient {hist : String → Option (List ℚ)} :
    ∀ (tickers : List String) (m : List (String × ℚ)),
      (∀ p ∈ m, ∃ df, hist p.1 = some df ∧ 7 ≤ df.length) →
      ∀ p ∈ tickers.foldl (fun m ticker =>
          match hist ticker with
          | some df => if 7 ≤ df.length then dictInsert m ticker (seven_day_return df) else m
          | none => m) m,
        ∃ df, hist p.1 = some df ∧ 7 ≤ df.length := by
  intro tickers
  induction tickers with
  | nil => intro m hm p hp; exact hm p hp
  | cons t rest ih =>
      intro m hm p hp
      rw [List.foldl_cons] at hp
      refine ih _ ?_ p hp
      cases hdf : hist t with
      | none => simpa [hdf] using hm
      | some df =>
          by_cases hlen : 7 ≤ df.length
          · simp only [hdf, if_pos hlen]
            intro q hq
            rcases mem_dictInsert hq with hq | hq
            · exact hm q hq
            · exact ⟨df, hq ▸ hdf, hlen⟩
          · simpa [hdf, hlen] using hm

/-- The sells reported by `execute_trades` are exactly the sell loop's
output, whatever the buy phase later does. -/
theorem execute_trades_sells (balances : List Balance) (manual : List String)
    (target_coins : List String) (L : LedgerState) (now : ℕ) (krw : ℚ)
    (max_slots : ℕ) (lp : Option ℕ) :
    (execute_trades balances manual target_coins L now krw max_slots lp).sells =
      (sellPhase target_coins now (qualifying balances manual) L).1 := by
  unfold execute_trades
  dsimp only
  split <;> [skip; rfl]
  split <;> [skip; rfl]
  split <;> rfl

/-- The buys reported by `execute_trades` when the buy phase runs come
from the buy loop on the post-sell holdings. -/
theorem execute_trades_buys (balances : List Balance) (manual : List String)
    (target_coins : List String) (L : LedgerState) (now : ℕ) (krw : ℚ)
    (max_slots : ℕ) (lp : Option ℕ) :
    (execute_trades balances manual target_coins L now krw max_slots lp).buys = [] ∨
    (0 < krw ∧
      0 < (max_slots : ℤ) -
        ((qualifying balances manual).filter (fun c => decide (c ∉
          (sellPhase target_coins now (qualifying balances manual) L).1))).length ∧
      ¬ (pyInt (krw / (((max_slots : ℤ) -
            ((qualifying balances manual).filter (fun c => decide (c ∉
              (sellPhase target_coins now (qualifying balances manual) L).1))).length : ℤ) : ℚ)
            / 1000) * 1000 < 5000) ∧
      (execute_trades balances manual target_coins L now krw max_slots lp).buys =
        (buyPhase (pyInt (krw / (((max_slots : ℤ) -
            ((qualifying balances manual).filter (fun c => decide (c ∉
              (sellPhase target_coins now (qualifying balances manual) L).1))).length : ℤ) : ℚ)
            / 1000) * 1000) now target_coins
          ((qualifying balances manual).filter (fun c => decide (c ∉
            (sellPhase target_coins now (qualifying balances manual) L).1)))
          (sellPhase target_coins now (qualifying balances manual) L).2 lp).1) := by
  unfold execute_trades
  dsimp only
  split
  · split
    · split
      · left; rfl
      · right
        refine ⟨by assumption, by assumption, by assumption, rfl⟩
    · left; rfl
  · left; rfl

/-!
Claim theorems.
-/

/-- C4: `should_keep_coin` returns false exactly when the ticker has a
recorded acquisition at least 14 whole days old (regardless of its
consecutive-hold count) or a recorded consecutive-hold count of at least
3 (regardless of age); each condition alone suffices, and in every other
case — including a ticker absent from both maps — it returns true. -/
theorem C4_should_keep_coin_characterisation (L : LedgerState) (now : ℕ) (ticker : String) :
    should_keep_coin L now ticker = false ↔
      ((∃ acquired, L.holding_periods ticker = some acquired ∧
          14 ≤ (now - acquired) / 86400) ∨
        (∃ c, L.consecutive_holds ticker = some c ∧ 3 ≤ c)) := by
  unfold should_keep_coin
  cases hp : L.holding_periods ticker with
  | none =>
      cases hc : L.consecutive_holds ticker with
      | none => simp
      | some c => by_cases h3 : 3 ≤ c <;> simp [h3]
  | some acquired =>
      by_cases hd : 14 ≤ (now - acquired) / 86400
      · simp only [if_pos hd, true_iff]
        exact Or.inl ⟨acquired, rfl, hd⟩
      · cases hc : L.consecutive_holds ticker with
        | none => simp [hd]
        | some c => by_cases h3 : 3 ≤ c <;> simp [h3, hd]

/-- C9: reconciling the ledger twice against the same account snapshot
gives the same ledger (both maps) as reconciling once — the second
application is a no-op, even at a different wall-clock time. -/
theorem C9_sync_idempotent (balances : List Balance) (manual : List String)
    (n1 n2 : ℕ) (L : LedgerState) :
    sync_holdings_with_current_state balances manual n2
        (sync_holdings_with_current_state balances manual n1 L) =
      sync_holdings_with_current_state balances manual n1 L := by
  refine LedgerState.ext ?_ ?_ <;> funext t
  · show (sync_holdings_with_current_state balances manual n2
        (sync_holdings_with_current_state balances manual n1 L)).holding_periods t =
      (sync_holdings_with_current_state balances manual n1 L).holding_periods t
    simp only [sync_holdings_with_current_state]
    by_cases h : t ∈ (qualifying balances manual).map mkTicker
    · simp only [if_pos h]
      cases L.holding_periods t <;> simp
    · simp [h]
  · show (sync_holdings_with_current_state balances manual n2
        (sync_holdings_with_current_state balances manual n1 L)).consecutive_holds t =
      (sync_holdings_with_current_state balances manual n1 L).consecutive_holds t
    simp only [sync_holdings_with_current_state]
    by_cases h : t ∈ (qualifying balances manual).map mkTicker
    · simp only [if_pos h]
      cases L.holding_periods t <;> simp
    · simp [h]

/-- C5 counterexample: on the 8-sample window
`[100, 200, 1, 1, 1, 1, 1, 300]` the code's score divides by the second
sample (200), giving 50, while the claimed formula divides by the first
sample of the window (100), giving 200 — so the claim's reading of
`close[last-7]` as "the first sample of the 8-sample window" is false. -/
theorem C5_counterexample :
    seven_day_return [100, 200, 1, 1, 1, 1, 1, 300] = 50 ∧
    claimed_seven_day_return [100, 200, 1, 1, 1, 1, 1, 300] = 200 ∧
    (50 : ℚ) ≠ 200 := by
  refine ⟨?_, ?_, by norm_num⟩ <;>
    norm_num [seven_day_return, claimed_seven_day_return, List.getD]

/-- C5 amended: on an 8-sample daily-close window the momentum score is
`(close[7] − close[1]) / close[1] × 100`: the reference close is the
sample six positions before the most recent one (the second sample of
the window, `iloc[-7]`), a trailing six-day return. -/
theorem C5_seven_day_return_window8 (closes : List ℚ) (h : closes.length = 8) :
    seven_day_return closes =
      (closes.getD 7 0 - closes.getD 1 0) / closes.getD 1 0 * 100 := by
  unfold seven_day_return
  rw [h]

/-- C5 witness: the amended formula evaluated on a concrete 8-sample
window. -/
theorem C5_seven_day_return_window8_witness :
    seven_day_return [100, 200, 1, 1, 1, 1, 1, 300] =
      (([100, 200, 1, 1, 1, 1, 1, 300] : List ℚ).getD 7 0 -
          ([100, 200, 1, 1, 1, 1, 1, 300] : List ℚ).getD 1 0) /
        ([100, 200, 1, 1, 1, 1, 1, 300] : List ℚ).getD 1 0 * 100 :=
  C5_seven_day_return_window8 [100, 200, 1, 1, 1, 1, 1, 300] rfl

/-- C6: for every candidate sequence and price history the momentum
selection (i) returns at most 3 symbols, (ii) is sorted descending by
score, (iii) never contains a symbol whose fetched history is missing or
shorter than 7 samples, and (iv) is stable: among entries of any equal
score the selected prefix preserves the order of the returns dict, which
itself is built in candidate input order. -/
theorem C6_momentum_selection (cands : List String) (hist : String → Option (List ℚ)) :
    (get_top3_momentum cands hist).length ≤ 3 ∧
    ((sortDescBy Prod.snd (calculate_7day_returns cands hist)).take 3).Pairwise
      (fun a b => b.2 ≤ a.2) ∧
    (∀ t, (∀ df, hist t = some df → df.length < 7) →
      t ∉ get_top3_momentum cands hist) ∧
    (∀ s : ℚ, List.Sublist
      (((sortDescBy Prod.snd (calculate_7day_returns cands hist)).take 3).filter
        (fun p => decide (p.2 = s)))
      ((calculate_7day_returns cands hist).filter (fun p => decide (p.2 = s)))) := by
  refine ⟨?_, ?_, ?_, ?_⟩
  · simp only [get_top3_momentum, List.length_map, List.length_take]
    exact min_le_left _ _
  · exact List.Pairwise.sublist (List.take_sublist 3 _) (pairwise_sortDescBy Prod.snd _)
  · intro t hbad ht
    simp only [get_top3_momentum, List.mem_map] at ht
    rcases ht with ⟨p, hp, rfl⟩
    have hp2 : p ∈ sortDescBy Prod.snd (calculate_7day_returns cands hist) :=
      (List.take_sublist 3 _).mem hp
    have hp3 : p ∈ calculate_7day_returns cands hist :=
      (mem_sortDescBy Prod.snd p _).mp hp2
    rcases calculate_7day_returns_sufficient cands [] (by intro q hq; cases hq) p hp3
      with ⟨df, hdf, hlen⟩
    exact absurd hlen (not_le.mpr (hbad df hdf))
  · intro s
    have h1 : List.Sublist
        (((sortDescBy Prod.snd (calculate_7day_returns cands hist)).take 3).filter
          (fun p => decide (p.2 = s)))
        ((sortDescBy Prod.snd (calculate_7day_returns cands hist)).filter
          (fun p => decide (p.2 = s))) :=
      (List.take_sublist 3 _).filter _
    have h2 := filter_sortDescBy Prod.snd (calculate_7day_returns cands hist) s
    rwa [h2] at h1

/-- C6 witness: a candidate whose history has only two samples is
excluded from the selection. -/
theorem C6_momentum_selection_witness :
    "KRW-AAA" ∉ get_top3_momentum ["KRW-AAA"] (fun _ => some [1, 2]) :=
  (C6_momentum_selection ["KRW-AAA"] (fun _ => some [1, 2])).2.2.1 "KRW-AAA"
    (fun df hdf => by
      cases hdf
      decide)

/-- C3: the regime transitions of the tick.  (i) Regime off while
active: every qualifying non-manual holding is sold during the tick
(stop-loss first, liquidation for the rest), no buy is proposed, the
state suspends, and `LiquidateAll` is emitted.  (ii) Regime on while
suspended: the state resumes and a `FullRebalance` is emitted.
(iii) Regime off while already suspended with nothing held (the state
every liquidation leaves behind; balances are the non-negative amounts an
account reports): the tick sells nothing, buys nothing, stays suspended
and emits nothing. -/
theorem C3_regime_state_machine (env : Env) (btc : Bool) (balances : List Balance)
    (krw : ℚ) (now : ℕ) (st : SysState) :
    (btc = false → st.is_trading_suspended = false →
      (∀ c ∈ qualifying balances env.manual,
        c ∈ (tick env btc balances krw now st).sells) ∧
      (tick env btc balances krw now st).buys = [] ∧
      (tick env btc balances krw now st).suspended = true ∧
      (tick env btc balances krw now st).decision = some Decision.LiquidateAll) ∧
    (btc = true → st.is_trading_suspended = true →
      (tick env btc balances krw now st).suspended = false ∧
      (tick env btc balances krw now st).decision = some Decision.FullRebalance) ∧
    (btc = false → st.is_trading_suspended = true →
      (∀ b ∈ balances, 0 ≤ b.balance) →
      qualifying balances env.manual = [] →
      (tick env btc balances krw now st).sells = [] ∧
      (tick env btc balances krw now st).buys = [] ∧
      (tick env btc balances krw now st).suspended = true ∧
      (tick env btc balances krw now st).decision = none) := by
  refine ⟨?_, ?_, ?_⟩
  · intro hb hsusp
    subst hb
    simp only [tick, hsusp, if_pos rfl, sell_all_positions, sellAllGo_fst]
    refine ⟨?_, rfl, rfl, rfl⟩
    intro c hc
    rcases mem_qualifying.mp hc with ⟨b, hb, rfl, hpos, hman, hval⟩
    by_cases hhit : stop_loss_hit env.manual env.prices (-20) b = true
    · exact List.mem_append.mpr
        (Or.inl (List.mem_map_of_mem _ (List.mem_filter.mpr ⟨hb, hhit⟩)))
    · refine List.mem_append.mpr (Or.inr ?_)
      exact mem_qualifying.mpr
        ⟨b, List.mem_filter.mpr ⟨hb, by simp [hhit]⟩, rfl, hpos, hman, hval⟩
  · intro hb hsusp
    subst hb
    simp only [tick, hsusp]
    exact ⟨rfl, rfl⟩
  · intro hb hsusp hnn hq
    subst hb
    have hnone : balances.filter (stop_loss_hit env.manual env.prices (-20)) = [] := by
      rw [List.filter_eq_nil_iff]
      intro b hb hhit
      simp only [stop_loss_hit, Bool.and_eq_true, decide_eq_true_eq] at hhit
      obtain ⟨⟨⟨hman, _⟩, hval⟩, _⟩ := hhit
      rcases (hnn b hb).lt_or_eq with hpos | heq
      · have : b.currency ∈ qualifying balances env.manual :=
          mem_qualifying.mpr ⟨b, hb, rfl, hpos, hman, hval⟩
        rw [hq] at this
        exact absurd this (List.not_mem_nil _)
      · rw [← heq] at hval
        norm_num at hval
    simp only [tick, hsusp, if_pos rfl, hnone, List.map_nil]
    exact ⟨rfl, rfl, rfl, rfl⟩

/-- C3 witness: the spec scenario — regime turns off with two qualifying
positions held while active: both are sold, no buys, state suspends,
`LiquidateAll` emitted. -/
theorem C3_regime_state_machine_witness :
    ("AAA" ∈ (tick fullSlateEnv false twoHoldings 0 0 ⟨false, emptyLedger, none⟩).sells) ∧
    ("BBB" ∈ (tick fullSlateEnv false twoHoldings 0 0 ⟨false, emptyLedger, none⟩).sells) ∧
    (tick fullSlateEnv false twoHoldings 0 0 ⟨false, emptyLedger, none⟩).buys = [] ∧
    (tick fullSlateEnv false twoHoldings 0 0 ⟨false, emptyLedger, none⟩).suspended = true ∧
    (tick fullSlateEnv false twoHoldings 0 0 ⟨false, emptyLedger, none⟩).decision =
      some Decision.LiquidateAll := by
  have h := (C3_regime_state_machine fullSlateEnv false twoHoldings 0 0
    ⟨false, emptyLedger, none⟩).1 rfl rfl
  have hA : "AAA" ∈ qualifying twoHoldings fullSlateEnv.manual :=
    mem_qualifying.mpr ⟨⟨"AAA", 1, 20000⟩, by simp [twoHoldings], rfl, by norm_num,
      by simp [fullSlateEnv], by norm_num⟩
  have hB : "BBB" ∈ qualifying twoHoldings fullSlateEnv.manual :=
    mem_qualifying.mpr ⟨⟨"BBB", 1, 20000⟩, by simp [twoHoldings], rfl, by norm_num,
      by simp [fullSlateEnv], by norm_num⟩
  exact ⟨h.1 "AAA" hA, h.1 "BBB" hB, h.2.1, h.2.2.1, h.2.2.2⟩

/-- C1: with the regime on, trading active, a full slate of three
qualifying holdings (`max_slots = 3`) and no stop-loss sells, the tick
emits nothing — whatever the ledger records as the oldest acquisition
time, whatever the current time, and however long ago the last purchase
was.  The run loop never consults position age when holdings are
present, so the claimed (and docstring-promised) interval rebalance
based on the oldest position's age never fires. -/
theorem C1_full_slate_never_rebalances (L : LedgerState) (lp : Option ℕ)
    (now : ℕ) (krw : ℚ) :
    (tick fullSlateEnv true threeHoldings krw now ⟨false, L, lp⟩).decision = none ∧
    (tick fullSlateEnv true threeHoldings krw now ⟨false, L, lp⟩).sells = [] ∧
    (tick fullSlateEnv true threeHoldings krw now ⟨false, L, lp⟩).buys = [] := by
  have hhit : ∀ b ∈ threeHoldings, stop_loss_hit [] flatPrices (-20) b = false := by
    intro b hb
    fin_cases hb <;>
      · simp only [stop_loss_hit, flatPrices]
        norm_num
  have hfilter : threeHoldings.filter (stop_loss_hit [] flatPrices (-20)) = [] :=
    List.filter_eq_nil_iff.mpr (fun b hb => by simp [hhit b hb])
  have hsold : check_loss_threshold threeHoldings [] flatPrices (-20) = [] := by
    simp [check_loss_threshold, hfilter]
  have hqual : qualifying threeHoldings [] = ["AAA", "BBB", "CCC"] := by
    norm_num [qualifying, threeHoldings, List.filter_cons]
  simp only [tick, fullSlateEnv, hsold, hfilter, hqual]
  norm_num

/-- C2 counterexample: the provider call fails (`none`), so the ranking
returns no candidates — and the cycle then sells the currently held
position `AAA`, because no holding belongs to the empty target set.
This refutes "no currently held position is sold as a consequence of the
empty candidate set". -/
theorem C2_counterexample :
    get_top20_market_cap none ["AAA"] [] = [] ∧
    "AAA" ∈ (execute_trades oneHolding []
        (get_top3_momentum (get_top20_market_cap none ["AAA"] []) (fun _ => none))
        emptyLedger 0 0 3 none).sells := by
  refine ⟨rfl, ?_⟩
  rw [show get_top3_momentum (get_top20_market_cap none ["AAA"] []) (fun _ => none) = []
    from rfl]
  rw [execute_trades_sells, sellPhase_nil_target]
  exact mem_qualifying.mpr ⟨⟨"AAA", 1, 20000⟩, by simp [oneHolding], rfl, by norm_num,
    by simp, by norm_num⟩

/-- C2 amended: a failed or unusable provider response yields an empty
candidate list, and the cycle still completes without crashing and
proposes no buys — but instead of being a no-op it sells every currently
held qualifying position, since none of them is in the empty target set. -/
theorem C2_empty_candidates_sell_everything
    (symbols exclude : List String) (hist : String → Option (List ℚ))
    (balances : List Balance) (manual : List String) (L : LedgerState)
    (now : ℕ) (krw : ℚ) (ms : ℕ) (lp : Option ℕ) :
    get_top20_market_cap none symbols exclude = [] ∧
    get_top3_momentum [] hist = [] ∧
    (execute_trades balances manual [] L now krw ms lp).buys = [] ∧
    (execute_trades balances manual [] L now krw ms lp).sells =
      qualifying balances manual := by
  refine ⟨rfl, rfl, ?_, ?_⟩
  · unfold execute_trades
    dsimp only
    split
    · split
      · split
        · rfl
        · rfl
      · rfl
    · rfl
  · rw [execute_trades_sells, sellPhase_nil_target]

/-- C7: a held position that survives rotation keeps its
consecutive-hold count unchanged.  `AAA` is held with count 1, is in the
target set and passes `should_keep_coin`, so it is not sold — yet after
the whole rebalance its count is still 1, not 2: `execute_trades` only
increments the count of coins it buys (line 380), never of coins it
retains.  (The reset-to-0-on-sell half of the claim does hold; see the
ledger lemmas for the sell loops.) -/
theorem C7_survivor_count_unchanged :
    (execute_trades oneHolding [] ["KRW-AAA", "KRW-BBB", "KRW-CCC"]
        oneHoldLedger 86400 0 3 none).sells = [] ∧
    (execute_trades oneHolding [] ["KRW-AAA", "KRW-BBB", "KRW-CCC"]
        oneHoldLedger 86400 0 3 none).ledger.consecutive_holds "KRW-AAA" = some 1 := by
  have hq : qualifying oneHolding [] = ["AAA"] := by
    norm_num [qualifying, oneHolding, List.filter_cons]
  have hkeep : should_keep_coin oneHoldLedger 86400 "KRW-AAA" = true := by
    simp [should_keep_coin, oneHoldLedger]
  have hsell : sellPhase ["KRW-AAA", "KRW-BBB", "KRW-CCC"] 86400 ["AAA"] oneHoldLedger =
      ([], oneHoldLedger) := by
    rw [sellPhase, if_neg]
    · rfl
    · rw [not_or]
      refine ⟨by decide, ?_⟩
      rw [show mkTicker "AAA" = "KRW-AAA" from rfl, hkeep]
      simp
  constructor <;>
  · unfold execute_trades
    dsimp only
    rw [hq, hsell]
    norm_num [oneHoldLedger]

/-- C8 amended: in every rebalance execution (target = the momentum
tickers `KRW-<s>` for distinct symbols `S`): (i) every proposed buy is
sized to available cash divided by the remaining slots (`max_slots`
minus the post-sell qualifying holding count), truncated to a multiple
of 1,000, and is at least the 5,000 minimum; (ii) if that per-slot
amount is below 5,000 no buy is proposed (the phase is skipped, not an
error); (iii) the buy count never exceeds the remaining slots provided
`max_slots` is at least the target-set size — the loop itself places one
buy per missing target symbol without consulting the slot count, so the
bound needs `S.length ≤ max_slots` (the original claim fails without it;
see the counterexample). -/
theorem C8_buy_plan (balances : List Balance) (manual : List String) (S : List String)
    (L : LedgerState) (now : ℕ) (krw : ℚ) (ms : ℕ) (lp : Option ℕ) :
    (∀ p ∈ (execute_trades balances manual (S.map mkTicker) L now krw ms lp).buys,
      p.2 = pyInt (krw / ((((ms : ℤ) -
          (((qualifying balances manual).filter (fun c => decide (c ∉
            (execute_trades balances manual (S.map mkTicker) L now krw ms lp).sells))).length
            : ℤ)) : ℤ) : ℚ) / 1000) * 1000 ∧
      (5000 : ℤ) ≤ p.2) ∧
    (pyInt (krw / ((((ms : ℤ) -
          (((qualifying balances manual).filter (fun c => decide (c ∉
            (execute_trades balances manual (S.map mkTicker) L now krw ms lp).sells))).length
            : ℤ)) : ℤ) : ℚ) / 1000) * 1000 < 5000 →
      (execute_trades balances manual (S.map mkTicker) L now krw ms lp).buys = []) ∧
    (S.Nodup → (qualifying balances manual).Nodup → S.length ≤ ms →
      (execute_trades balances manual (S.map mkTicker) L now krw ms lp).buys.length +
        ((qualifying balances manual).filter (fun c => decide (c ∉
          (execute_trades balances manual (S.map mkTicker) L now krw ms lp).sells))).length
        ≤ ms) := by
  rw [execute_trades_sells]
  have hheld1 : ∀ c ∈ (qualifying balances manual).filter (fun c => decide (c ∉
      (sellPhase (S.map mkTicker) now (qualifying balances manual) L).1)),
      c ∈ S := by
    intro c hc
    rcases List.mem_filter.mp hc with ⟨hcq, hcns⟩
    rw [decide_eq_true_eq] at hcns
    by_cases hct : mkTicker c ∈ S.map mkTicker
    · exact mem_map_mkTicker.mp hct
    · exact absurd (sellPhase_sold_of_not_target hct _ L hcq) hcns
  rcases execute_trades_buys balances manual (S.map mkTicker) L now krw ms lp with
    hnil | ⟨hkrw, hrem, hni, hbuys⟩
  · refine ⟨?_, ?_, ?_⟩
    · intro p hp
      rw [hnil] at hp
      cases hp
    · intro _
      exact hnil
    · intro hndS hndQ hms
      rw [hnil]
      simp only [List.length_nil, Nat.zero_add]
      have hnd1 : ((qualifying balances manual).filter (fun c => decide (c ∉
          (sellPhase (S.map mkTicker) now (qualifying balances manual) L).1))).Nodup :=
        hndQ.filter _
      calc ((qualifying balances manual).filter (fun c => decide (c ∉
            (sellPhase (S.map mkTicker) now (qualifying balances manual) L).1))).length
          = ((qualifying balances manual).filter (fun c => decide (c ∉
            (sellPhase (S.map mkTicker) now (qualifying balances manual) L).1))).toFinset.card
            := (List.toFinset_card_of_nodup hnd1).symm
        _ ≤ S.toFinset.card := Finset.card_le_card (by
            intro x hx
            rw [List.mem_toFinset] at hx ⊢
            exact hheld1 x hx)
        _ ≤ S.length := List.toFinset_card_le S
        _ ≤ ms := hms
  · refine ⟨?_, ?_, ?_⟩
    · intro p hp
      rw [hbuys] at hp
      exact ⟨buyPhase_amount _ _ _ _ p hp, by
        rw [buyPhase_amount _ _ _ _ p hp]
        exact not_lt.mp hni⟩
    · intro hlt
      exact absurd hlt hni
    · intro hndS hndQ hms
      rw [hbuys, buyPhase_length _ _ _ _ hndS]
      have hsplit := length_filter_split S (fun s => decide (s ∉
        (qualifying balances manual).filter (fun c => decide (c ∉
          (sellPhase (S.map mkTicker) now (qualifying balances manual) L).1))))
      have hcongr : S.filter (fun a => !(decide (a ∉
          (qualifying balances manual).filter (fun c => decide (c ∉
            (sellPhase (S.map mkTicker) now (qualifying balances manual) L).1))))) =
          S.filter (fun a => decide (a ∈
          (qualifying balances manual).filter (fun c => decide (c ∉
            (sellPhase (S.map mkTicker) now (qualifying balances manual) L).1)))) :=
        List.filter_congr (by intro x _; simp)
      have hge := length_filter_mem_ge hheld1 hndS
        (hndQ.filter _)
      rw [hcongr] at hsplit
      omega

/-- C8 counterexample: with `max_slots = 2`, no holdings and 20,000 KRW
cash, the target `{AAA, BBB, CCC}` produces three buys of 10,000 KRW
each — more buys than the 2 remaining slots (and more cash than is
available).  The buy loop never checks the slot count per buy. -/
theorem C8_counterexample :
    (execute_trades [] [] (["AAA", "BBB", "CCC"].map mkTicker)
        emptyLedger 0 20000 2 none).buys.length = 3 ∧
    ¬ ((execute_trades [] [] (["AAA", "BBB", "CCC"].map mkTicker)
          emptyLedger 0 20000 2 none).buys.length +
        ((qualifying [] []).filter (fun c => decide (c ∉ (execute_trades [] []
          (["AAA", "BBB", "CCC"].map mkTicker) emptyLedger 0 20000 2 none).sells))).length
        ≤ 2) := by
  have hq : qualifying [] [] = [] := rfl
  have hsp : sellPhase (["AAA", "BBB", "CCC"].map mkTicker) 0 [] emptyLedger =
      ([], emptyLedger) := rfl
  have h3 : (execute_trades [] [] (["AAA", "BBB", "CCC"].map mkTicker)
      emptyLedger 0 20000 2 none).buys.length = 3 := by
    unfold execute_trades
    dsimp only
    simp only [hq, hsp, List.filter_nil, List.length_nil]
    rw [if_pos (by norm_num : (0 : ℚ) < 20000)]
    rw [if_pos (by norm_num : (0 : ℤ) < ((2 : ℕ) : ℤ) - ((0 : ℕ) : ℤ))]
    have hinv : pyInt ((20000 : ℚ) / ((((2 : ℕ) : ℤ) - ((0 : ℕ) : ℤ) : ℤ) : ℚ) / 1000) *
        1000 = 10000 := by
      norm_num [pyInt]
    rw [hinv]
    rw [if_neg (by norm_num : ¬ (10000 : ℤ) < 5000)]
    decide
  refine ⟨h3, ?_⟩
  rw [h3, hq]
  simp

/-- C8 witness: `max_slots = 3`, no holdings, 30,000 KRW cash and target
`{AAA, BBB}`: the buy of `KRW-AAA` carries the per-slot amount
`int(30000 / 3 / 1000) * 1000 = 10000 ≥ 5000`, and the buy count plus
the post-sell holding count stays within the three slots. -/
theorem C8_buy_plan_witness :
    ((("KRW-AAA" : String), (10000 : ℤ)).2 =
      pyInt ((30000 : ℚ) / (((((3 : ℕ) : ℤ) -
          (((qualifying [] []).filter (fun c => decide (c ∉
            (execute_trades [] [] (["AAA", "BBB"].map mkTicker)
              emptyLedger 0 30000 3 none).sells))).length : ℤ)) : ℤ) : ℚ) / 1000) * 1000 ∧
      (5000 : ℤ) ≤ ((("KRW-AAA" : String), (10000 : ℤ)).2)) ∧
    ((execute_trades [] [] (["AAA", "BBB"].map mkTicker)
        emptyLedger 0 30000 3 none).buys.length +
      ((qualifying [] []).filter (fun c => decide (c ∉
        (execute_trades [] [] (["AAA", "BBB"].map mkTicker)
          emptyLedger 0 30000 3 none).sells))).length ≤ 3) := by
  have hq : qualifying [] [] = [] := rfl
  have hsp : sellPhase (["AAA", "BBB"].map mkTicker) 0 [] emptyLedger =
      ([], emptyLedger) := rfl
  have hbuys : (execute_trades [] [] (["AAA", "BBB"].map mkTicker)
      emptyLedger 0 30000 3 none).buys =
      [("KRW-AAA", 10000), ("KRW-BBB", 10000)] := by
    unfold execute_trades
    dsimp only
    simp only [hq, hsp, List.filter_nil, List.length_nil]
    rw [if_pos (by norm_num : (0 : ℚ) < 30000)]
    rw [if_pos (by norm_num : (0 : ℤ) < ((3 : ℕ) : ℤ) - ((0 : ℕ) : ℤ))]
    have hinv : pyInt ((30000 : ℚ) / ((((3 : ℕ) : ℤ) - ((0 : ℕ) : ℤ) : ℤ) : ℚ) / 1000) *
        1000 = 10000 := by
      norm_num [pyInt]
    rw [hinv]
    rw [if_neg (by norm_num : ¬ (10000 : ℤ) < 5000)]
    decide
  have h := C8_buy_plan [] [] ["AAA", "BBB"] emptyLedger 0 30000 3 none
  refine ⟨h.1 ("KRW-AAA", 10000) ?_, h.2.2 (by decide) (by rw [hq]; exact List.nodup_nil)
    (by decide)⟩
  rw [hbuys]
  exact List.mem_cons_self _ _

/-- C10: wherever a position leaves the ledger — reconciliation finding
it no longer qualifying, a rotation sell, or a liquidation sell — its
acquisition timestamp is deleted but its hold-count entry is set to 0,
not removed; a ticker absent from both the snapshot and the timestamp
map keeps whatever stale count it has across further reconciliations;
and concretely, reconciling `strayLedger` against an account holding
only `BBB` leaves a count map whose key set strictly contains the
timestamp map's key set (`KRW-AAA` keeps count 0 with no timestamp). -/
theorem C10_removal_keeps_zero_count
    (balances : List Balance) (manual : List String) (now : ℕ) (L : LedgerState)
    (t : String) (holdings target : List String) (c : String) :
    (L.holding_periods t ≠ none → t ∉ (qualifying balances manual).map mkTicker →
      (sync_holdings_with_current_state balances manual now L).holding_periods t = none ∧
      (sync_holdings_with_current_state balances manual now L).consecutive_holds t = some 0) ∧
    (c ∈ (sellPhase target now holdings L).1 →
      (sellPhase target now holdings L).2.holding_periods (mkTicker c) = none ∧
      (sellPhase target now holdings L).2.consecutive_holds (mkTicker c) = some 0) ∧
    (c ∈ (sell_all_positions balances manual L).1 →
      (sell_all_positions balances manual L).2.holding_periods (mkTicker c) = none ∧
      (sell_all_positions balances manual L).2.consecutive_holds (mkTicker c) = some 0) ∧
    (t ∉ (qualifying balances manual).map mkTicker → L.holding_periods t = none →
      (sync_holdings_with_current_state balances manual now L).consecutive_holds t =
        L.consecutive_holds t) ∧
    ((sync_holdings_with_current_state [⟨"BBB", 1, 20000⟩] [] 5 strayLedger).holding_periods
        "KRW-AAA" = none ∧
      (sync_holdings_with_current_state [⟨"BBB", 1, 20000⟩] [] 5 strayLedger).consecutive_holds
        "KRW-AAA" = some 0 ∧
      (sync_holdings_with_current_state [⟨"BBB", 1, 20000⟩] [] 5 strayLedger).holding_periods
        "KRW-BBB" ≠ none ∧
      ∀ s, (sync_holdings_with_current_state
          [⟨"BBB", 1, 20000⟩] [] 5 strayLedger).holding_periods s ≠ none →
        (sync_holdings_with_current_state
          [⟨"BBB", 1, 20000⟩] [] 5 strayLedger).consecutive_holds s ≠ none) := by
  have hqual : qualifying [⟨"BBB", 1, 20000⟩] [] = ["BBB"] := by
    norm_num [qualifying, List.filter_cons]
  refine ⟨?_, sellPhase_ledger_of_sold holdings L, ?_, ?_, ?_⟩
  · intro hrec hcur
    simp only [sync_holdings_with_current_state, if_neg hcur]
    cases hp : L.holding_periods t with
    | none => exact absurd hp hrec
    | some p => exact ⟨trivial, rfl⟩
  · intro hcs
    have hcs2 : c ∈ qualifying balances manual := by
      have : (sell_all_positions balances manual L).1 = qualifying balances manual := by
        unfold sell_all_positions
        exact sellAllGo_fst _ L
      rwa [this] at hcs
    exact sellAllGo_ledger_of_sold (qualifying balances manual) L hcs2
  · intro hcur hnorec
    simp only [sync_holdings_with_current_state, if_neg hcur, hnorec]
  · refine ⟨?_, ?_, ?_, ?_⟩
    · simp only [sync_holdings_with_current_state, hqual]
      rw [if_neg (by decide)]
    · simp only [sync_holdings_with_current_state, hqual]
      rw [if_neg (by decide)]
      simp [strayLedger]
    · simp only [sync_holdings_with_current_state, hqual]
      rw [if_pos (by decide)]
      simp [strayLedger]
    · intro s hs
      simp only [sync_holdings_with_current_state, hqual] at hs ⊢
      by_cases hmem : s ∈ (["BBB"].map mkTicker)
      · rw [if_pos hmem] at hs ⊢
        have hsb : s = "KRW-BBB" := by
          simpa [mkTicker] using hmem
        subst hsb
        simp [strayLedger]
      · rw [if_neg hmem] at hs
        exact absurd rfl hs

/-- C10 witness: the stale `KRW-AAA` entry after reconciling
`strayLedger` against an account holding only `BBB`. -/
theorem C10_removal_keeps_zero_count_witness :
    (sync_holdings_with_current_state [⟨"BBB", 1, 20000⟩] [] 5 strayLedger).holding_periods
        "KRW-AAA" = none ∧
    (sync_holdings_with_current_state [⟨"BBB", 1, 20000⟩] [] 5 strayLedger).consecutive_holds
        "KRW-AAA" = some 0 := by
  have hqual : qualifying [⟨"BBB", 1, 20000⟩] [] = ["BBB"] := by
    norm_num [qualifying, List.filter_cons]
  exact (C10_removal_keeps_zero_count [⟨"BBB", 1, 20000⟩] [] 5 strayLedger "KRW-AAA"
      [] [] "AAA").1
    (by simp [strayLedger]) (by rw [hqual]; decide)
